import Mathlib

/-!
Verification development for the certification-portal backend
(`main.py`, `app/models.py`, `app/db.py`, `app/cognito_auth.py`).

The Python service is shallowly embedded: JSON values carried around by
`json.loads` become the inductive `JVal`, the LLM-output extraction
function `parse_llm_response` becomes a Lean function over `List Char`,
the SQLAlchemy-backed tables become lists of row structures inside a `DB`
record, and each FastAPI endpoint becomes a function `DB → ... → result × DB`
where an error result leaves the database unchanged (uncommitted sessions
are discarded when the request handler raises, and `create_exam` rolls
back explicitly).
-/

namespace CertPortal

/- Characters spelled via code points to keep source scanning simple. -/

def lbrace : Char := Char.ofNat 123

def rbrace : Char := Char.ofNat 125

def btick : Char := Char.ofNat 96

def squote : Char := Char.ofNat 39

/-- Python exceptions that the embedded code can raise.
`http` is `fastapi.HTTPException(status_code, detail)`;
`typeErr` is a built-in `TypeError` (raised e.g. by `enumerate`
on a non-iterable). -/
inductive Err where
  | http (code : Nat) (detail : String)
  | typeErr (msg : String)
deriving DecidableEq, Repr

/-- `str(e)` for the exceptions above. Starlette's `HTTPException.__str__`
prints `f"{status_code}: {detail}"`. -/
def errStr : Err → String
  | .http c d => toString c ++ ": " ++ d
  | .typeErr m => m

/-- JSON values as produced by Python's `json.loads`.
Integer-syntax numbers are `num`; numbers with a fraction/exponent and the
non-standard `NaN`/`Infinity` constants (accepted by `json.loads`) are kept
as their source token in `numF` (their exact Python float formatting is not
modelled; no verified property depends on it). Object keys may repeat in
the parse output; lookups take the last binding, as CPython does. -/
inductive JVal where
  | null
  | bool (b : Bool)
  | num (n : Int)
  | numF (raw : List Char)
  | str (s : List Char)
  | arr (elems : List JVal)
  | obj (kvs : List (List Char × JVal))
deriving Repr

/-- True when a float token denotes zero (`0.0`, `-0.00`, `0e5`, ...):
every mantissa character is a zero digit or the decimal point.
`NaN` and `Infinity` tokens contain other letters and so count as nonzero. -/
def mantissaAllZero (t : List Char) : Bool :=
  let t := if t.head? = some '-' then t.tail else t
  let m := t.takeWhile (fun c => c ≠ 'e' ∧ c ≠ 'E')
  m.all (fun c => c == '0' || c == '.')

/-- Python truthiness of a JSON-decoded value (`if not x`). -/
def JVal.truthy : JVal → Bool
  | .null => false
  | .bool b => b
  | .num n => n != 0
  | .numF t => !(mantissaAllZero t)
  | .str s => !s.isEmpty
  | .arr l => !l.isEmpty
  | .obj l => !l.isEmpty

/-- Characters removed by Python's `str.strip()` (ASCII fragment). -/
def isPyWs (c : Char) : Bool :=
  c == ' ' || c == '\t' || c == '\n' || c == '\r' ||
    c == Char.ofNat 11 || c == Char.ofNat 12

def lstrip (l : List Char) : List Char := l.dropWhile isPyWs

def rstrip (l : List Char) : List Char := (l.reverse.dropWhile isPyWs).reverse

/-- Python `str.strip()`. -/
def pystrip (l : List Char) : List Char := rstrip (lstrip l)

def joinComma : List (List Char) → List Char
  | [] => []
  | [x] => x
  | x :: xs => x ++ ", ".data ++ joinComma xs

mutual

/-- Python `str(v)` of a JSON-decoded value. List/dict display is Python's
`repr`-based rendering with string quoting abstracted to plain single
quotes (escape selection inside `repr` is not modelled; no verified
property compares against a list or dict rendering).  The extra `Nat` is
recursion fuel so that the definition is structural and kernel-reducible;
callers supply fuel at least the size of the value, which its exhaustion
branch (returning `[]`) then never runs on. -/
def JVal.pystrAux : Nat → JVal → List Char
  | 0, _ => []
  | fuel + 1, v =>
    match v with
    | .str s => s
    | .num n => (toString n).data
    | .numF t => t
    | .bool true => "True".data
    | .bool false => "False".data
    | .null => "None".data
    | .arr l => '[' :: joinComma (pyreprListAux fuel l) ++ [']']
    | .obj kvs => lbrace :: joinComma (pyreprKvsAux fuel kvs) ++ [rbrace]

/-- `repr(v)` as used inside Python's container rendering. -/
def JVal.pyreprAux : Nat → JVal → List Char
  | 0, _ => []
  | _ + 1, .str s => squote :: s ++ [squote]
  | fuel + 1, v => JVal.pystrAux fuel v

def pyreprListAux : Nat → List JVal → List (List Char)
  | 0, _ => []
  | _ + 1, [] => []
  | fuel + 1, v :: vs => JVal.pyreprAux fuel v :: pyreprListAux fuel vs

def pyreprKvsAux : Nat → List (List Char × JVal) → List (List Char)
  | 0, _ => []
  | _ + 1, [] => []
  | fuel + 1, (k, v) :: kvs =>
    (squote :: k ++ [squote] ++ ": ".data ++ JVal.pyreprAux fuel v) ::
      pyreprKvsAux fuel kvs

end

/-- Python iteration (`enumerate(x)`): lists yield elements, strings yield
one-character strings, dicts yield their keys; numbers, booleans and `None`
are not iterable and raise `TypeError`. -/
def JVal.pyiter : JVal → Except Err (List JVal)
  | .arr l => .ok l
  | .str s => .ok (s.map (fun c => .str [c]))
  | .obj kvs => .ok (kvs.map (fun kv => .str kv.1))
  | _ => .error (.typeErr "object is not iterable")

/-- Last-binding lookup, matching CPython's duplicate-key behaviour of
`json.loads` followed by `dict.get`. -/
def objGet (kvs : List (List Char × JVal)) (k : List Char) : Option JVal :=
  (kvs.reverse.find? (fun kv => kv.1 == k)).map (fun kv => kv.2)

/- ===== json.loads, restricted to what the extraction pipeline feeds it ===== -/

def isJsonWs (c : Char) : Bool :=
  c == ' ' || c == '\t' || c == '\n' || c == '\r'

def skipWs (l : List Char) : List Char := l.dropWhile isJsonWs

def hexDigitVal (c : Char) : Option Nat :=
  if '0' ≤ c ∧ c ≤ '9' then some (c.toNat - 48)
  else if 'a' ≤ c ∧ c ≤ 'f' then some (c.toNat - 87)
  else if 'A' ≤ c ∧ c ≤ 'F' then some (c.toNat - 70)
  else none

/-- Body of a JSON string, after the opening quote.  Control characters
must be escaped (json's strict mode); `\uXXXX` escapes are decoded to the
code point (surrogate-pair recombination is not modelled; no verified
property exercises it). -/
def parseStringAux : Nat → List Char → List Char → Except Unit (List Char × List Char)
  | 0, _, _ => .error ()
  | _ + 1, _, [] => .error ()
  | fuel + 1, acc, c :: rest =>
    if c = '"' then .ok (acc.reverse, rest)
    else if c = '\\' then
      match rest with
      | [] => .error ()
      | e :: rest2 =>
        if e = '"' then parseStringAux fuel ('"' :: acc) rest2
        else if e = '\\' then parseStringAux fuel ('\\' :: acc) rest2
        else if e = '/' then parseStringAux fuel ('/' :: acc) rest2
        else if e = 'b' then parseStringAux fuel (Char.ofNat 8 :: acc) rest2
        else if e = 'f' then parseStringAux fuel (Char.ofNat 12 :: acc) rest2
        else if e = 'n' then parseStringAux fuel ('\n' :: acc) rest2
        else if e = 'r' then parseStringAux fuel ('\r' :: acc) rest2
        else if e = 't' then parseStringAux fuel ('\t' :: acc) rest2
        else if e = 'u' then
          match rest2 with
          | h1 :: h2 :: h3 :: h4 :: rest3 =>
            match hexDigitVal h1, hexDigitVal h2, hexDigitVal h3, hexDigitVal h4 with
            | some a, some b, some c', some d =>
              parseStringAux fuel (Char.ofNat (((a * 16 + b) * 16 + c') * 16 + d) :: acc) rest3
            | _, _, _, _ => .error ()
          | _ => .error ()
        else .error ()
    else if c.toNat < 32 then .error ()
    else parseStringAux fuel (c :: acc) rest

def digitsToNat (l : List Char) : Nat :=
  l.foldl (fun a c => a * 10 + (c.toNat - 48)) 0

/-- JSON number, starting at a `-` or a digit.  Integer syntax yields
`JVal.num`; fraction/exponent syntax yields a `JVal.numF` token. -/
def parseNumber (l : List Char) : Except Unit (JVal × List Char) :=
  let (neg, l1) := if l.head? = some '-' then (true, l.tail) else (false, l)
  let intPart := l1.takeWhile Char.isDigit
  let rest1 := l1.dropWhile Char.isDigit
  if intPart.isEmpty then .error ()
  else if intPart.length > 1 ∧ intPart.head? = some '0' then .error ()
  else
    let (fracPart, rest2) :=
      match rest1 with
      | '.' :: r =>
        let ds := r.takeWhile Char.isDigit
        ('.' :: ds, r.dropWhile Char.isDigit)
      | _ => ([], rest1)
    if fracPart = ['.'] then .error ()
    else
      let (expPart, rest3) :=
        match rest2 with
        | c :: r =>
          if c = 'e' ∨ c = 'E' then
            let (sgn, r1) :=
              match r with
              | s :: r1 => if s = '+' ∨ s = '-' then ([s], r1) else ([], r)
              | [] => ([], r)
            let ds := r1.takeWhile Char.isDigit
            if ds.isEmpty then ([c], rest2)  -- marker for failure below
            else (c :: sgn ++ ds, r1.dropWhile Char.isDigit)
          else ([], rest2)
        | [] => ([], rest2)
      if expPart.length = 1 then .error ()
      else if fracPart.isEmpty ∧ expPart.isEmpty then
        let n : Int := Int.ofNat (digitsToNat intPart)
        .ok (.num (if neg then -n else n), rest1)
      else
        let tok := (if neg then ['-'] else []) ++ intPart ++ fracPart ++ expPart
        .ok (.numF tok, rest3)

mutual

/-- One JSON value, at the head of `l` (leading whitespace already
skipped).  Accepts the non-standard `NaN`, `Infinity` and `-Infinity`
tokens like CPython's default `json.loads`. -/
def parseValue : Nat → List Char → Except Unit (JVal × List Char)
  | 0, _ => .error ()
  | _ + 1, [] => .error ()
  | fuel + 1, c :: rest =>
    if c = '"' then
      match parseStringAux (rest.length + 1) [] rest with
      | .ok (s, r) => .ok (.str s, r)
      | .error _ => .error ()
    else if c = lbrace then parseObjBody fuel rest
    else if c = '[' then parseArrBody fuel rest
    else if c = 't' then
      match rest with
      | 'r' :: 'u' :: 'e' :: r => .ok (.bool true, r)
      | _ => .error ()
    else if c = 'f' then
      match rest with
      | 'a' :: 'l' :: 's' :: 'e' :: r => .ok (.bool false, r)
      | _ => .error ()
    else if c = 'n' then
      match rest with
      | 'u' :: 'l' :: 'l' :: r => .ok (.null, r)
      | _ => .error ()
    else if c = 'N' then
      match rest with
      | 'a' :: 'N' :: r => .ok (.numF "NaN".data, r)
      | _ => .error ()
    else if c = 'I' then
      match rest with
      | 'n' :: 'f' :: 'i' :: 'n' :: 'i' :: 't' :: 'y' :: r => .ok (.numF "Infinity".data, r)
      | _ => .error ()
    else if c = '-' then
      match rest with
      | 'I' :: 'n' :: 'f' :: 'i' :: 'n' :: 'i' :: 't' :: 'y' :: r =>
        .ok (.numF "-Infinity".data, r)
      | _ => parseNumber (c :: rest)
    else if c.isDigit then parseNumber (c :: rest)
    else .error ()

/-- Array body, after the opening bracket. -/
def parseArrBody : Nat → List Char → Except Unit (JVal × List Char)
  | 0, _ => .error ()
  | fuel + 1, l =>
    match skipWs l with
    | ']' :: r => .ok (.arr [], r)
    | l1 => parseArrElems fuel l1 []

def parseArrElems : Nat → List Char → List JVal → Except Unit (JVal × List Char)
  | 0, _, _ => .error ()
  | fuel + 1, l, acc =>
    match parseValue fuel l with
    | .error _ => .error ()
    | .ok (v, r) =>
      match skipWs r with
      | ',' :: r2 => parseArrElems fuel (skipWs r2) (v :: acc)
      | ']' :: r2 => .ok (.arr (v :: acc).reverse, r2)
      | _ => .error ()

/-- Object body, after the opening brace. -/
def parseObjBody : Nat → List Char → Except Unit (JVal × List Char)
  | 0, _ => .error ()
  | fuel + 1, l =>
    match skipWs l with
    | c :: r =>
      if c = rbrace then .ok (.obj [], r)
      else parseObjMembers fuel (c :: r) []
    | [] => .error ()

def parseObjMembers : Nat → List Char → List (List Char × JVal) →
    Except Unit (JVal × List Char)
  | 0, _, _ => .error ()
  | fuel + 1, l, acc =>
    match l with
    | '"' :: r =>
      match parseStringAux (r.length + 1) [] r with
      | .error _ => .error ()
      | .ok (k, r1) =>
        match skipWs r1 with
        | ':' :: r2 =>
          match parseValue fuel (skipWs r2) with
          | .error _ => .error ()
          | .ok (v, r3) =>
            match skipWs r3 with
            | ',' :: r4 =>
              match skipWs r4 with
              | '"' :: r5 => parseObjMembers fuel ('"' :: r5) ((k, v) :: acc)
              | _ => .error ()
            | c :: r4 =>
              if c = rbrace then .ok (.obj (((k, v) :: acc).reverse), r4)
              else .error ()
            | [] => .error ()
        | _ => .error ()
    | _ => .error ()

end

/-- `json.loads` on a candidate block: one JSON value surrounded by
optional whitespace.  The recursion fuel `8 * length + 8` exceeds the at
most four fuel units the parser spends per input character, so the fuel
exhaustion branches never run. -/
def jsonLoads (block : List Char) : Except Unit JVal :=
  match parseValue (8 * block.length + 8) (skipWs block) with
  | .error _ => .error ()
  | .ok (v, rest) => if (skipWs rest).isEmpty then .ok v else .error ()

/- ===== parse_llm_response (main.py lines 59-108) ===== -/

/-- `re.sub(r"```json|```", "", raw_text, flags=re.IGNORECASE)`:
left-to-right scan removing each fence token, preferring the longer
`  ```json  ` alternative (its four letters matched case-insensitively). -/
def stripFencesAux : Nat → List Char → List Char
  | 0, l => l
  | _ + 1, [] => []
  | fuel + 1, c :: rest =>
    if c = btick ∧ rest.take 2 = [btick, btick] then
      let after := rest.drop 2
      if (after.take 4).map Char.toLower = "json".data then
        stripFencesAux fuel (after.drop 4)
      else
        stripFencesAux fuel after
    else c :: stripFencesAux fuel rest

/-- Each scan step consumes at least one character, so fuel equal to the
length is adequate and the fuel-exhaustion branch never runs. -/
def stripFences (l : List Char) : List Char := stripFencesAux l.length l

/-- `re.findall(r"\{[^{}]*\}", text)`: every complete flat-object span,
left to right.  The running state holds the characters seen since the most
recent unmatched opening brace, if any. -/
def findBlocksAux : List Char → Option (List Char) → List (List Char)
  | [], _ => []
  | c :: rest, st =>
    if c = lbrace then findBlocksAux rest (some [])
    else if c = rbrace then
      match st with
      | some acc => (lbrace :: acc.reverse ++ [rbrace]) :: findBlocksAux rest none
      | none => findBlocksAux rest none
    else
      match st with
      | some acc => findBlocksAux rest (some (c :: acc))
      | none => findBlocksAux rest none

def findBlocks (l : List Char) : List (List Char) := findBlocksAux l none

/-- A question candidate surviving extraction:
`{"question": q, "options": opts, "answer_index": i}`. -/
structure Candidate where
  question : JVal
  options : JVal
  answerIndex : Nat
deriving Repr

/-- The per-block body of the extraction loop.  Only `json.loads` is under
the `try`, so a decode failure (or a missing/falsy field, or an answer
matching no option) drops the block, while iterating a truthy non-iterable
`Options` value raises `TypeError` out of the whole function. -/
def processBlock (block : List Char) : Except Err (Option Candidate) :=
  match jsonLoads block with
  | .error _ => .ok none
  | .ok item =>
    match item with
    | .obj kvs =>
      match objGet kvs "Question".data, objGet kvs "Options".data,
          objGet kvs "Answer".data with
      | some qv, some ov, some av =>
        if !qv.truthy || !ov.truthy || !av.truthy then .ok none
        else
          match ov.pyiter with
          | .error e => .error e
          | .ok items =>
            -- `str(...)` fuel: any value decoded from `block` (and hence
            -- any of its parts) is smaller than `4 * block.length + 4`.
            let fuel := 4 * block.length + 4
            let target := pystrip (JVal.pystrAux fuel av)
            match items.findIdx?
                (fun it => pystrip (JVal.pystrAux fuel it) == target) with
            | none => .ok none
            | some i => .ok (some ⟨qv, ov, i⟩)
      | _, _, _ => .ok none
    | _ => .error (.typeErr "not a dict")

/-- The extraction loop over all blocks; an exception raised at one block
aborts the whole run (candidates gathered earlier are lost). -/
def blocksToCandidates : List (List Char) → Except Err (List Candidate)
  | [] => .ok []
  | b :: bs =>
    match processBlock b with
    | .error e => .error e
    | .ok none => blocksToCandidates bs
    | .ok (some c) =>
      match blocksToCandidates bs with
      | .error e => .error e
      | .ok cs => .ok (c :: cs)

/-- `parse_llm_response` (main.py lines 59-108): strip markdown fences,
locate the first `[`, extract complete flat `{...}` spans and decode each
into a candidate. -/
def parse_llm_response (raw : String) : Except Err (List Candidate) :=
  if raw.data.isEmpty then .ok []
  else
    let text := pystrip (stripFences raw.data)
    match text.findIdx? (fun c => c = '[') with
    | none => .ok []
    | some i => blocksToCandidates (findBlocks (text.drop i))

/- ===== Batch generation loop (main.py lines 185-253) ===== -/

/-- One response from the external question generator
(`requests.get(LLM_API_URL, ...)`): HTTP status plus raw body text.
Transport-level exceptions are not modelled; the verified properties about
the loop assume every call returns a response. -/
structure GenResp where
  status : Nat
  text : String

/-- The retry loop of `create_exam`: while fewer than `total` questions
are accumulated and fewer than `MAX_ATTEMPTS = 30` calls were made, call
the generator for `min(BATCH_SIZE = 10, remaining)` questions and extend
the accumulator with whatever `parse_llm_response` yields.  The oracle is
indexed by the (0-based) call number; the returned list records the
`questionscount` requested by each call.  A `parse_llm_response` exception
escapes the loop; exhausting the budget raises the HTTP 500 with the
partial count. -/
def genLoopAux (oracle : Nat → GenResp) (total : Nat) (attempts : Nat)
    (acc : List Candidate) (log : List Nat) :
    Except Err (List Candidate) × List Nat :=
  if _h : acc.length < total ∧ attempts < 30 then
    let bc := min 10 (total - acc.length)
    let r := oracle attempts
    let log' := log ++ [bc]
    if r.status ≠ 200 then genLoopAux oracle total (attempts + 1) acc log'
    else
      match parse_llm_response r.text with
      | .error e => (.error e, log')
      | .ok [] => genLoopAux oracle total (attempts + 1) acc log'
      | .ok (q :: qs) => genLoopAux oracle total (attempts + 1) (acc ++ q :: qs) log'
  else if acc.length < total then
    (.error (.http 500 ("Could only generate " ++ toString acc.length ++
      " questions after retries")), log)
  else
    (.ok (acc.take total), log)
termination_by 30 - attempts
decreasing_by all_goals omega

/- ===== Data model (app/models.py) ===== -/

/-- `users` table: id is the Cognito sub (or, on the assignment
provisioning path, the email). -/
structure UserRow where
  id : String
  email : String
  name : String
  isAdmin : Bool
deriving DecidableEq, Repr

/-- `exams` table. -/
structure ExamRow where
  id : String
  title : String
  language : String
  questionCount : Nat
  timeAllowedSecs : Int
  createdBy : String
  isActive : Bool
deriving DecidableEq, Repr

/-- `questions` table.  `text` and `choices` hold the raw decoded values
from the extraction pipeline exactly as the source stores them
(`difficulty` keeps its default and is never read; it is omitted). -/
structure QuestionRow where
  id : String
  text : JVal
  choices : JVal
  answerIndex : Nat
  examId : String
deriving Repr

/-- `exam_assignments` table (timestamps omitted). -/
structure AssignmentRow where
  id : String
  examId : String
  candidateEmail : String
  assignedBy : String
  status : String
deriving DecidableEq, Repr

/-- `candidate_exams` table: one attempt.  `answers` is the JSON dict
mapping `str(question_id)` to the selected index, kept as an ordered
association list with Python-dict insert semantics.  `endedAt` is an
abstract timestamp. -/
structure AttemptRow where
  id : String
  userId : String
  examId : String
  questionIds : List String
  answers : List (String × Int)
  timeAllowedSecs : Int
  timeElapsed : Int
  status : String
  endedAt : Option Nat
  score : Int
deriving DecidableEq, Repr

/-- The relational store, with a counter supplying generated row ids
(`gen_id` / Cognito subs). -/
structure DB where
  users : List UserRow
  exams : List ExamRow
  questions : List QuestionRow
  assignments : List AssignmentRow
  candidateExams : List AttemptRow
  nextId : Nat
deriving Repr

def freshId (n : Nat) : String := "gen-" ++ toString n

/-- `db.query(User).filter(User.email == email).first()`. -/
def findUserByEmail (db : DB) (email : String) : Option UserRow :=
  db.users.find? (fun u => u.email == email)

/-- Python dict insert: an existing key is updated in place, a new key is
appended. -/
def dictInsert (k : String) (v : Int) (m : List (String × Int)) : List (String × Int) :=
  if m.any (fun kv => kv.1 == k) then
    m.map (fun kv => if kv.1 == k then (k, v) else kv)
  else m ++ [(k, v)]

/-- ORM-style in-place mutation of the row returned by `.first()`:
rewrite the first list element satisfying `p`. -/
def updateFirst (p : α → Bool) (f : α → α) : List α → List α
  | [] => []
  | a :: as => if p a then f a :: as else a :: updateFirst p f as

/-- `email.split("@")[0]`. -/
def emailName (email : String) : String :=
  ⟨email.data.takeWhile (fun c => c ≠ '@')⟩

/-- `email.endswith("@nmkglobalinc.com")`. -/
def isNmkEmail (email : String) : Bool :=
  "@nmkglobalinc.com".data.isSuffixOf email.data

/-- `email.strip().lower()` (ASCII fragment). -/
def normEmail (email : String) : String :=
  ⟨(pystrip email.data).map Char.toLower⟩

/- ===== Endpoints (main.py) ===== -/

/-- `schemas.ExamCreateIn` (the schemas module only declares field types). -/
structure ExamCreateIn where
  title : String
  language : String
  questionCount : Nat
  timeAllowedSecs : Int

/-- `POST /auth/sync` (main.py lines 114-141): lazily create the user on
first authentication, deriving `is_admin` from the email domain; an
existing user is returned untouched. -/
def sync_user (db : DB) (sub email : String) : Except Err Unit × DB :=
  match findUserByEmail db email with
  | some _ => (.ok (), db)
  | none =>
    let u : UserRow := ⟨sub, email, emailName email, isNmkEmail email⟩
    (.ok (), { db with users := db.users ++ [u] })

def mkQuestionRows (examId : String) : Nat → List Candidate → List QuestionRow
  | _, [] => []
  | base, c :: cs =>
    ⟨freshId base, c.question, c.options, c.answerIndex, examId⟩ ::
      mkQuestionRows examId (base + 1) cs

/-- `POST /admin/exams` (main.py lines 169-253): admin check, then the
generation loop, then exam + question rows committed together.  Any
exception inside the `try` (generation exhausted, or one escaping
`parse_llm_response`) rolls the session back and is re-raised as
`HTTPException(500, str(e))`. -/
def create_exam (db : DB) (callerEmail : String) (inp : ExamCreateIn)
    (oracle : Nat → GenResp) : Except Err ExamRow × DB :=
  match findUserByEmail db callerEmail with
  | none => (.error (.http 403 "Admin only"), db)
  | some u =>
    if !u.isAdmin then (.error (.http 403 "Admin only"), db)
    else
      match (genLoopAux oracle inp.questionCount 0 [] []).1 with
      | .error e => (.error (.http 500 (errStr e)), db)
      | .ok qs =>
        let examId := freshId db.nextId
        let ex : ExamRow :=
          ⟨examId, inp.title, inp.language, qs.length, inp.timeAllowedSecs, u.id, true⟩
        (.ok ex, { db with
          exams := db.exams ++ [ex],
          questions := db.questions ++ mkQuestionRows examId (db.nextId + 1) qs,
          nextId := db.nextId + 1 + qs.length })

/-- Outcome of `cognito_admin.admin_create_user` for one email. -/
inductive CogResult where
  | created
  | alreadyExists
  | failed
deriving DecidableEq, Repr

structure AssignStats where
  assigned : Nat
  emailed : Nat
  created : Nat
deriving DecidableEq, Repr

/-- The per-email body of `assign_exam`'s loop: normalize the email,
provision a missing user (Cognito failure aborts the request; the user row
is created with `is_admin=False` on this path), skip an existing
assignment, otherwise create the assignment and attempt the notification
email (whose failure is swallowed). -/
def assignLoop (cog : String → CogResult) (sendOk : String → Bool)
    (adminId examId : String) :
    List String → DB → AssignStats → Except Err AssignStats × DB
  | [], db, st => (.ok st, db)
  | e :: rest, db, st =>
    let em := normEmail e
    let userStep : Except Err (DB × AssignStats) :=
      match findUserByEmail db em with
      | some _ => .ok (db, st)
      | none =>
        match cog em with
        | .failed => .error (.http 500 "Cognito user creation failed")
        | _ =>
          .ok ({ db with users := db.users ++ [⟨em, em, emailName em, false⟩] },
               { st with created := st.created + 1 })
    match userStep with
    | .error err => (.error err, db)
    | .ok (db1, st1) =>
      if db1.assignments.any (fun a => a.examId == examId && a.candidateEmail == em) then
        assignLoop cog sendOk adminId examId rest db1 st1
      else
        let arow : AssignmentRow := ⟨freshId db1.nextId, examId, em, adminId, "assigned"⟩
        let db2 := { db1 with
          assignments := db1.assignments ++ [arow], nextId := db1.nextId + 1 }
        let st2 := { st1 with
          assigned := st1.assigned + 1,
          emailed := if sendOk em then st1.emailed + 1 else st1.emailed }
        assignLoop cog sendOk adminId examId rest db2 st2

/-- `POST /admin/exams/{exam_id}/assign` (main.py lines 257-384).  A raise
inside the loop aborts the request before `db.commit()`, so the session's
pending writes are discarded. -/
def assign_exam (db : DB) (callerEmail examId : String) (emails : List String)
    (cog : String → CogResult) (sendOk : String → Bool) :
    Except Err AssignStats × DB :=
  match findUserByEmail db callerEmail with
  | none => (.error (.http 403 "Admin only"), db)
  | some u =>
    if !u.isAdmin then (.error (.http 403 "Admin only"), db)
    else
      match db.exams.find? (fun ex => ex.id == examId) with
      | none => (.error (.http 404 "Exam not found"), db)
      | some _ =>
        match assignLoop cog sendOk u.id examId emails db ⟨0, 0, 0⟩ with
        | (.error e, _) => (.error e, db)
        | (.ok st, db') => (.ok st, db')

/-- `PATCH /admin/exams/{exam_id}/toggle` (main.py lines 483-511). -/
def toggle_exam_status (db : DB) (callerEmail examId : String) :
    Except Err Bool × DB :=
  match findUserByEmail db callerEmail with
  | none => (.error (.http 403 "Admin only"), db)
  | some u =>
    if !u.isAdmin then (.error (.http 403 "Admin only"), db)
    else
      match db.exams.find? (fun ex => ex.id == examId) with
      | none => (.error (.http 404 "Exam not found"), db)
      | some ex =>
        (.ok (!ex.isActive), { db with
          exams := updateFirst (fun e => e.id == examId)
            (fun e => { e with isActive := !e.isActive }) db.exams })

/-- The `in_progress` lookup shared by `start_exam` and `resume_exam`:
first attempt of this user whose status is `in_progress`, for any exam. -/
def findInProgress (db : DB) (uid : String) : Option AttemptRow :=
  db.candidateExams.find? (fun a => a.userId == uid && a.status == "in_progress")

/-- `POST /exam/{exam_id}/start` (main.py lines 546-616): require an
assignment, return any existing `in_progress` attempt unchanged (before
even validating the exam), otherwise snapshot the active exam's question
ids into a fresh `in_progress` attempt and flip the assignment to
`started`. -/
def start_exam (db : DB) (callerEmail examId : String) :
    Except Err AttemptRow × DB :=
  match findUserByEmail db callerEmail with
  | none => (.error (.http 404 "User not found"), db)
  | some u =>
    match db.assignments.find?
        (fun a => a.examId == examId && a.candidateEmail == u.email) with
    | none => (.error (.http 403 "This exam is not assigned to you"), db)
    | some asg =>
      match findInProgress db u.id with
      | some existing => (.ok existing, db)
      | none =>
        match db.exams.find? (fun ex => ex.id == examId && ex.isActive) with
        | none => (.error (.http 404 "Exam not found"), db)
        | some ex =>
          let qids := (db.questions.filter (fun q => q.examId == examId)).map
            (fun q => q.id)
          if qids.isEmpty then (.error (.http 400 "No questions found"), db)
          else
            let att : AttemptRow :=
              ⟨freshId db.nextId, u.id, examId, qids, [], ex.timeAllowedSecs, 0,
                "in_progress", none, 0⟩
            (.ok att, { db with
              candidateExams := db.candidateExams ++ [att],
              assignments := updateFirst (fun a => a.id == asg.id)
                (fun a => { a with status := "started" }) db.assignments,
              nextId := db.nextId + 1 })

/-- Question rehydration shared by `get_exam`, `resume_exam` and
`get_result`: per stored id, the first matching question row, missing ids
skipped. -/
def lookupQuestions (db : DB) (qids : List String) : List QuestionRow :=
  qids.filterMap (fun qid => db.questions.find? (fun q => q.id == qid))

/-- `GET /exam/{candidate_exam_id}` (main.py lines 619-662), read-only. -/
def get_exam (db : DB) (callerEmail ceid : String) :
    Except Err (AttemptRow × List QuestionRow) × DB :=
  match findUserByEmail db callerEmail with
  | none => (.error (.http 404 "User not found"), db)
  | some u =>
    match db.candidateExams.find? (fun a => a.id == ceid && a.userId == u.id) with
    | none => (.error (.http 404 "Exam not found"), db)
    | some ce => (.ok (ce, lookupQuestions db ce.questionIds), db)

/-- `POST /exam/{candidate_exam_id}/save-answer` (main.py lines 667-703):
merge one `str(question_id) ↦ selected_index` binding into the answers
dict and overwrite `time_elapsed`.  No membership or range validation. -/
def save_answer (db : DB) (callerEmail ceid : String) (questionId : String)
    (selectedIndex : Int) (timeElapsed : Int) : Except Err Unit × DB :=
  match findUserByEmail db callerEmail with
  | none => (.error (.http 404 "User not found"), db)
  | some u =>
    match db.candidateExams.find? (fun a => a.id == ceid && a.userId == u.id) with
    | none => (.error (.http 404 "Exam not found"), db)
    | some _ce =>
      (.ok (), { db with
        candidateExams := updateFirst (fun a => a.id == ceid && a.userId == u.id)
          (fun a => { a with
            answers := dictInsert questionId selectedIndex a.answers,
            timeElapsed := timeElapsed }) db.candidateExams })

/-- One entry of the `bulk-save` payload's `answers` array. -/
structure BulkItem where
  questionId : String
  selectedIndex : Int
  timeElapsed : Int
deriving DecidableEq, Repr

/-- The `bulk_save_answers` item loop: each item merges its binding and
overwrites `time_elapsed` (the last item wins). -/
def applyBulk : List BulkItem → List (String × Int) × Int → List (String × Int) × Int
  | [], s => s
  | it :: rest, (ans, _t) =>
    applyBulk rest (dictInsert it.questionId it.selectedIndex ans, it.timeElapsed)

/-- `POST /exam/{candidate_exam_id}/bulk-save` (main.py lines 705-748). -/
def bulk_save_answers (db : DB) (callerEmail ceid : String)
    (items : List BulkItem) : Except Err Unit × DB :=
  match findUserByEmail db callerEmail with
  | none => (.error (.http 404 "User not found"), db)
  | some u =>
    match db.candidateExams.find? (fun a => a.id == ceid && a.userId == u.id) with
    | none => (.error (.http 404 "Exam not found"), db)
    | some _ce =>
      (.ok (), { db with
        candidateExams := updateFirst (fun a => a.id == ceid && a.userId == u.id)
          (fun a =>
            let s := applyBulk items (a.answers, a.timeElapsed)
            { a with answers := s.1, timeElapsed := s.2 }) db.candidateExams })

/-- `GET /exam/resume` (main.py lines 751-795), read-only. -/
def resume_exam (db : DB) (callerEmail : String) :
    Except Err (AttemptRow × List QuestionRow) × DB :=
  match findUserByEmail db callerEmail with
  | none => (.error (.http 404 "User not found"), db)
  | some u =>
    match findInProgress db u.id with
    | none => (.error (.http 404 "No active exam"), db)
    | some ce => (.ok (ce, lookupQuestions db ce.questionIds), db)

/-- Modelled from the spec: `app/exam.py` (the `exam.compute_score` helper
invoked by `submit_exam`) is not among the sources.  Spec §4.5: for each
id in the attempt's `question_ids`, look the question up and compare
`answers.get(question_id)` with its `answer_index`; count exact matches;
unanswered or missing questions count as incorrect. -/
def compute_score (db : DB) (ce : AttemptRow) : Int :=
  Int.ofNat ((ce.questionIds.filter (fun qid =>
    match db.questions.find? (fun q => q.id == qid) with
    | none => false
    | some q =>
      (ce.answers.find? (fun kv => kv.1 == qid)).map Prod.snd ==
        some (Int.ofNat q.answerIndex))).length)

/-- `POST /exam/{candidate_exam_id}/submit` (main.py lines 801-840): set
the final elapsed time, force status `completed`, stamp `ended_at`,
recompute the score.  The current status is never inspected. -/
def submit_exam (db : DB) (callerEmail ceid : String) (finalTimeElapsed : Int)
    (now : Nat) : Except Err (Int × String) × DB :=
  match findUserByEmail db callerEmail with
  | none => (.error (.http 404 "User not found"), db)
  | some u =>
    match db.candidateExams.find? (fun a => a.id == ceid && a.userId == u.id) with
    | none => (.error (.http 404 "Exam not found"), db)
    | some ce =>
      let ce1 := { ce with
        timeElapsed := finalTimeElapsed, status := "completed", endedAt := some now }
      let ce2 := { ce1 with score := compute_score db ce1 }
      (.ok (ce2.score, ce2.status), { db with
        candidateExams := updateFirst (fun a => a.id == ceid && a.userId == u.id)
          (fun a =>
            let a1 := { a with
              timeElapsed := finalTimeElapsed, status := "completed",
              endedAt := some now }
            { a1 with score := compute_score db a1 }) db.candidateExams })

/-- One row of the result details list. -/
structure ResultDetail where
  question : JVal
  choices : JVal
  selected : Option Int
  correctIndex : Nat
  isCorrect : Bool
deriving Repr

/-- `GET /exam/{candidate_exam_id}/result` (main.py lines 845-890),
read-only. -/
def get_result (db : DB) (callerEmail ceid : String) :
    Except Err (Int × String × List ResultDetail) × DB :=
  match findUserByEmail db callerEmail with
  | none => (.error (.http 404 "User not found"), db)
  | some u =>
    match db.candidateExams.find? (fun a => a.id == ceid && a.userId == u.id) with
    | none => (.error (.http 404 "Exam not found"), db)
    | some ce =>
      let details := ce.questionIds.filterMap (fun qid =>
        (db.questions.find? (fun q => q.id == qid)).map (fun q =>
          let sel := (ce.answers.find? (fun kv => kv.1 == qid)).map Prod.snd
          (⟨q.text, q.choices, sel, q.answerIndex,
            sel == some (Int.ofNat q.answerIndex)⟩ : ResultDetail)))
      (.ok (ce.score, ce.status, details), db)

/-- The operations of the system that read or write portal state.  The
remaining endpoints (`/auth/me`, the exam/assignment/result listings,
`/auth/change-password-admin`) issue no database writes at all. -/
inductive Op where
  | sync (sub email : String)
  | createEx (email : String) (inp : ExamCreateIn) (oracle : Nat → GenResp)
  | assign (email examId : String) (emails : List String)
      (cog : String → CogResult) (sendOk : String → Bool)
  | toggle (email examId : String)
  | start (email examId : String)
  | getEx (email ceid : String)
  | save (email ceid qid : String) (sel t : Int)
  | bulk (email ceid : String) (items : List BulkItem)
  | resume (email : String)
  | submit (email ceid : String) (t : Int) (now : Nat)
  | result (email ceid : String)

/-- The database state after one request, whatever its outcome. -/
def applyOp (db : DB) : Op → DB
  | .sync s e => (sync_user db s e).2
  | .createEx e inp oracle => (create_exam db e inp oracle).2
  | .assign e ex ems cog sendOk => (assign_exam db e ex ems cog sendOk).2
  | .toggle e ex => (toggle_exam_status db e ex).2
  | .start e ex => (start_exam db e ex).2
  | .getEx e ce => (get_exam db e ce).2
  | .save e ce q s t => (save_answer db e ce q s t).2
  | .bulk e ce items => (bulk_save_answers db e ce items).2
  | .resume e => (resume_exam db e).2
  | .submit e ce t now => (submit_exam db e ce t now).2
  | .result e ce => (get_result db e ce).2

/- ===== Shared lemmas ===== -/

lemma genLoopAux_step_ok {oracle : Nat → GenResp} {total attempts : Nat}
    {acc : List Candidate} {log : List Nat} {q : Candidate} {qs : List Candidate}
    (h1 : acc.length < total) (h2 : attempts < 30)
    (h3 : (oracle attempts).status = 200)
    (h4 : parse_llm_response (oracle attempts).text = .ok (q :: qs)) :
    genLoopAux oracle total attempts acc log =
      genLoopAux oracle total (attempts + 1) (acc ++ q :: qs)
        (log ++ [min 10 (total - acc.length)]) := by
  rw [genLoopAux]
  simp [h1, h2, h3, h4]

lemma genLoopAux_step_empty {oracle : Nat → GenResp} {total attempts : Nat}
    {acc : List Candidate} {log : List Nat}
    (h1 : acc.length < total) (h2 : attempts < 30)
    (hbad : (oracle attempts).status ≠ 200 ∨
      parse_llm_response (oracle attempts).text = .ok []) :
    genLoopAux oracle total attempts acc log =
      genLoopAux oracle total (attempts + 1) acc
        (log ++ [min 10 (total - acc.length)]) := by
  rw [genLoopAux]
  rcases hbad with hs | hp
  · simp [h1, h2, hs]
  · by_cases h200 : (oracle attempts).status = 200
    · simp [h1, h2, h200, hp]
    · simp [h1, h2, h200, hp]

lemma genLoopAux_done {oracle : Nat → GenResp} {total attempts : Nat}
    {acc : List Candidate} {log : List Nat} (h : ¬ acc.length < total) :
    genLoopAux oracle total attempts acc log = (.ok (acc.take total), log) := by
  rw [genLoopAux]
  simp [h]

lemma genLoopAux_exhausted {oracle : Nat → GenResp} {total : Nat}
    {acc : List Candidate} {log : List Nat} (h : acc.length < total) :
    genLoopAux oracle total 30 acc log =
      (.error (.http 500 ("Could only generate " ++ toString acc.length ++
        " questions after retries")), log) := by
  rw [genLoopAux]
  simp [h]

/-- All-unusable oracle: the loop spends its whole attempt budget making no
progress and then signals exhaustion with partial count 0. -/
lemma genLoopAux_allBad {oracle : Nat → GenResp} {total : Nat}
    (htot : 0 < total)
    (hbad : ∀ i, (oracle i).status ≠ 200 ∨
      parse_llm_response (oracle i).text = .ok []) :
    ∀ n k (log : List Nat), k + n = 30 →
      genLoopAux oracle total k [] log =
        (.error (.http 500 ("Could only generate 0 questions after retries")),
          log ++ List.replicate n (min 10 total)) := by
  intro n
  induction n with
  | zero =>
    intro k log hk
    have hk' : k = 30 := by omega
    subst hk'
    rw [genLoopAux_exhausted (by simpa using htot)]
    simp only [List.replicate, List.append_nil]
    rfl
  | succ m ih =>
    intro k log hk
    have hk30 : k < 30 := by omega
    rw [genLoopAux_step_empty (by simpa using htot) hk30 (hbad k)]
    rw [ih (k + 1) _ (by omega)]
    simp [List.replicate_succ, List.append_assoc]

/- ===== C1 ===== -/

/-- C1: when the admin-authorized generation loop gets no usable candidate
from any call (non-200 status or a text parsing to zero candidates, which
covers empty text), it makes exactly `MAX_ATTEMPTS = 30` generator calls,
fails with the HTTP 500 whose message carries the partial count (here 0)
wrapped by the handler's `except` into `str(e)`, and leaves the database —
in particular the exam and question tables — unchanged. -/
theorem create_exam_exhausts_attempts (db : DB) (email : String) (u : UserRow)
    (inp : ExamCreateIn) (oracle : Nat → GenResp)
    (hu : findUserByEmail db email = some u) (hadm : u.isAdmin = true)
    (htot : 0 < inp.questionCount)
    (hbad : ∀ i, (oracle i).status ≠ 200 ∨
      parse_llm_response (oracle i).text = .ok []) :
    (genLoopAux oracle inp.questionCount 0 [] []).2.length = 30 ∧
    (genLoopAux oracle inp.questionCount 0 [] []).1 =
      .error (.http 500 "Could only generate 0 questions after retries") ∧
    create_exam db email inp oracle =
      (.error (.http 500 "500: Could only generate 0 questions after retries"), db) := by
  have hloop := genLoopAux_allBad htot hbad 30 0 [] rfl
  refine ⟨by rw [hloop]; simp, by rw [hloop], ?_⟩
  simp only [create_exam, hu, hadm, Bool.not_true, Bool.false_eq_true,
    if_false, hloop]
  rfl

/-- The database, generator stub and request of the closed C1 instance. -/
def dbC1 : DB := ⟨[⟨"adm", "boss@nmkglobalinc.com", "boss", true⟩], [], [], [], [], 0⟩

def oracleC1 : Nat → GenResp := fun _ => ⟨500, ""⟩

def inpC1 : ExamCreateIn := ⟨"Java Cert", "java", 25, 1800⟩

/-- Closed instance of `create_exam_exhausts_attempts`: a generator that
always answers HTTP 500. -/
theorem create_exam_exhausts_attempts_witness :
    (genLoopAux oracleC1 25 0 [] []).2.length = 30 ∧
    (genLoopAux oracleC1 25 0 [] []).1 =
      .error (.http 500 "Could only generate 0 questions after retries") ∧
    create_exam dbC1 "boss@nmkglobalinc.com" inpC1 oracleC1 =
      (.error (.http 500 "500: Could only generate 0 questions after retries"), dbC1) :=
  create_exam_exhausts_attempts dbC1 "boss@nmkglobalinc.com"
    ⟨"adm", "boss@nmkglobalinc.com", "boss", true⟩ inpC1 oracleC1 rfl rfl
    (by decide) (fun _ => Or.inl (by norm_num [oracleC1]))

/- ===== C2 ===== -/

/-- C2: with a generator yielding 10 valid candidates on every call (at
least as many as each call requests), `target_count = 25` completes in
exactly 3 calls requesting `min(10, remaining)` questions — 10, 10, 5 —
and the accumulator, which reaches 30, is truncated to exactly 25. -/
theorem gen_loop_three_calls (oracle : Nat → GenResp)
    (hgood : ∀ i < 3, (oracle i).status = 200 ∧
      (parse_llm_response (oracle i).text).map List.length = .ok 10) :
    ∃ qs, genLoopAux oracle 25 0 [] [] = (.ok qs, [10, 10, 5]) ∧
      qs.length = 25 := by
  have hcons : ∀ i < 3, ∃ q t, parse_llm_response (oracle i).text = .ok (q :: t) ∧
      t.length = 9 := by
    intro i hi
    rcases hgood i hi with ⟨-, hm⟩
    cases hp : parse_llm_response (oracle i).text with
    | error e => rw [hp] at hm; simp [Except.map] at hm
    | ok l =>
      rw [hp] at hm
      simp only [Except.map, Except.ok.injEq] at hm
      cases l with
      | nil => simp at hm
      | cons q t =>
        refine ⟨q, t, rfl, ?_⟩
        simp only [List.length_cons] at hm
        omega
  obtain ⟨q0, t0, hp0, hl0⟩ := hcons 0 (by omega)
  obtain ⟨q1, t1, hp1, hl1⟩ := hcons 1 (by omega)
  obtain ⟨q2, t2, hp2, hl2⟩ := hcons 2 (by omega)
  have hs0 := (hgood 0 (by omega)).1
  have hs1 := (hgood 1 (by omega)).1
  have hs2 := (hgood 2 (by omega)).1
  rw [genLoopAux_step_ok (by simp) (by omega) hs0 hp0]
  rw [genLoopAux_step_ok
    (by simp only [List.nil_append, List.length_cons, hl0]; omega)
    (by omega) hs1 hp1]
  rw [genLoopAux_step_ok
    (by simp only [List.nil_append, List.length_append, List.length_cons,
      hl0, hl1]; omega)
    (by omega) hs2 hp2]
  rw [genLoopAux_done
    (by simp only [List.nil_append, List.length_append, List.length_cons,
      hl0, hl1, hl2]; omega)]
  simp only [List.nil_append, List.length_append, List.length_cons,
    List.length_nil, hl0, hl1, hl2]
  norm_num
  simp only [hl0, hl1, hl2]
  omega

/-- Generator stub of the closed C2 instance: every call answers 200 with
a body parsing to exactly 10 candidates. -/
def oracleC2 : Nat → GenResp := fun _ => ⟨200, "[" ++
  "\x7b\"Question\": \"q1\", \"Options\": [\"a\", \"b\"], \"Answer\": \"a\"\x7d," ++
  "\x7b\"Question\": \"q2\", \"Options\": [\"a\", \"b\"], \"Answer\": \"a\"\x7d," ++
  "\x7b\"Question\": \"q3\", \"Options\": [\"a\", \"b\"], \"Answer\": \"a\"\x7d," ++
  "\x7b\"Question\": \"q4\", \"Options\": [\"a\", \"b\"], \"Answer\": \"a\"\x7d," ++
  "\x7b\"Question\": \"q5\", \"Options\": [\"a\", \"b\"], \"Answer\": \"a\"\x7d," ++
  "\x7b\"Question\": \"q6\", \"Options\": [\"a\", \"b\"], \"Answer\": \"a\"\x7d," ++
  "\x7b\"Question\": \"q7\", \"Options\": [\"a\", \"b\"], \"Answer\": \"a\"\x7d," ++
  "\x7b\"Question\": \"q8\", \"Options\": [\"a\", \"b\"], \"Answer\": \"a\"\x7d," ++
  "\x7b\"Question\": \"q9\", \"Options\": [\"a\", \"b\"], \"Answer\": \"a\"\x7d," ++
  "\x7b\"Question\": \"q10\", \"Options\": [\"a\", \"b\"], \"Answer\": \"a\"\x7d]"⟩

set_option maxRecDepth 40000 in
/-- Closed instance of `gen_loop_three_calls`. -/
theorem gen_loop_three_calls_witness :
    ∃ qs, genLoopAux oracleC2 25 0 [] [] = (.ok qs, [10, 10, 5]) ∧
      qs.length = 25 :=
  gen_loop_three_calls oracleC2 (fun i _ => ⟨rfl, by rfl⟩)

/- ===== C3 ===== -/

/-- C3 (failing input): the extractor is not total.  Only `json.loads` is
guarded by the `try`; a decoded object whose `Options` value is a truthy
non-iterable (here the integer 7) reaches `enumerate(opts)` and raises
`TypeError`, escaping `parse_llm_response`, contrary to the never-fails
contract. -/
theorem parse_llm_response_raises_on_nonlist_options :
    parse_llm_response
        "[\x7b\"Question\": \"q\", \"Options\": 7, \"Answer\": \"a\"\x7d]" =
      .error (.typeErr "object is not iterable") := by
  rfl

/- ===== C5 ===== -/

/-- C5: for a user with a valid assignment for the exam being started and
an existing `in_progress` attempt, `start` returns that attempt unchanged
— both on the first and on an immediately repeated call — creating no
second attempt (the database is untouched) and never comparing the
attempt's exam to the exam being started. -/
theorem start_exam_idempotent (db : DB) (email examId : String) (u : UserRow)
    (asg : AssignmentRow) (att : AttemptRow)
    (hu : findUserByEmail db email = some u)
    (ha : db.assignments.find?
      (fun a => a.examId == examId && a.candidateEmail == u.email) = some asg)
    (hp : findInProgress db u.id = some att) :
    start_exam db email examId = (.ok att, db) ∧
    start_exam (start_exam db email examId).2 email examId = (.ok att, db) := by
  have h1 : start_exam db email examId = (.ok att, db) := by
    simp only [start_exam, hu, ha, hp]
  exact ⟨h1, by rw [h1]; exact h1⟩

/-- Closed instance of `start_exam_idempotent`.  The existing attempt is
for exam `e1` while `e2` is being started: both calls still return it. -/
theorem start_exam_idempotent_witness :
    (let att : AttemptRow :=
      ⟨"ce1", "sub-a", "e1", ["q1"], [], 1800, 0, "in_progress", none, 0⟩
    let db : DB := ⟨[⟨"sub-a", "a@x.com", "a", false⟩], [], [],
      [⟨"as1", "e2", "a@x.com", "adm", "assigned"⟩], [att], 5⟩
    start_exam db "a@x.com" "e2" = (.ok att, db) ∧
    start_exam (start_exam db "a@x.com" "e2").2 "a@x.com" "e2" =
      (.ok att, db)) := by
  exact start_exam_idempotent _ _ _ _ _ _ rfl rfl rfl

/- ===== C10 ===== -/

/-- C10: every attempt-scoped operation filters by the attempt id *and*
the caller's user id, so a request naming an attempt that does not belong
to the caller (here: every attempt carrying the requested id belongs to
someone else) fails with `404 Exam not found` and leaves the database
unchanged. -/
theorem attempt_ops_owner_scoped (db : DB) (email ceid qid : String)
    (sel t ft : Int) (now : Nat) (items : List BulkItem) (u : UserRow)
    (hu : findUserByEmail db email = some u)
    (hother : ∀ a ∈ db.candidateExams, a.id = ceid → a.userId ≠ u.id) :
    get_exam db email ceid = (.error (.http 404 "Exam not found"), db) ∧
    save_answer db email ceid qid sel t =
      (.error (.http 404 "Exam not found"), db) ∧
    bulk_save_answers db email ceid items =
      (.error (.http 404 "Exam not found"), db) ∧
    submit_exam db email ceid ft now =
      (.error (.http 404 "Exam not found"), db) ∧
    get_result db email ceid = (.error (.http 404 "Exam not found"), db) := by
  have hfind : db.candidateExams.find?
      (fun a => a.id == ceid && a.userId == u.id) = none := by
    rw [List.find?_eq_none]
    intro a ha
    simp only [Bool.and_eq_true, beq_iff_eq, not_and]
    exact hother a ha
  refine ⟨?_, ?_, ?_, ?_, ?_⟩ <;>
    simp only [get_exam, save_answer, bulk_save_answers, submit_exam,
      get_result, hu, hfind]

/-- The database of the closed C10 instance: the only attempt with id
`ce-bob` belongs to bob, while alice is the caller. -/
def dbC10 : DB := ⟨[⟨"alice-sub", "alice@x.com", "alice", false⟩,
  ⟨"bob-sub", "bob@x.com", "bob", false⟩], [], [], [],
  [⟨"ce-bob", "bob-sub", "e1", ["q1"], [], 100, 0, "in_progress", none, 0⟩], 7⟩

/-- Closed instance of `attempt_ops_owner_scoped`. -/
theorem attempt_ops_owner_scoped_witness :
    get_exam dbC10 "alice@x.com" "ce-bob" =
      (.error (.http 404 "Exam not found"), dbC10) ∧
    save_answer dbC10 "alice@x.com" "ce-bob" "q1" 0 5 =
      (.error (.http 404 "Exam not found"), dbC10) ∧
    bulk_save_answers dbC10 "alice@x.com" "ce-bob" [⟨"q1", 1, 9⟩] =
      (.error (.http 404 "Exam not found"), dbC10) ∧
    submit_exam dbC10 "alice@x.com" "ce-bob" 11 3 =
      (.error (.http 404 "Exam not found"), dbC10) ∧
    get_result dbC10 "alice@x.com" "ce-bob" =
      (.error (.http 404 "Exam not found"), dbC10) :=
  attempt_ops_owner_scoped dbC10 "alice@x.com" "ce-bob" "q1" 0 5 11 3
    [⟨"q1", 1, 9⟩] ⟨"alice-sub", "alice@x.com", "alice", false⟩ rfl (by decide)

/- ===== C8 ===== -/

/-- The §3 invariant: every attempt's answer keys lie among its frozen
question ids. -/
def answersInv (db : DB) : Prop :=
  ∀ a ∈ db.candidateExams, ∀ k ∈ a.answers.map Prod.fst, k ∈ a.questionIds

lemma dictInsert_fst_mem {k : String} {v : Int} {m : List (String × Int)} :
    ∀ x ∈ (dictInsert k v m).map Prod.fst, x = k ∨ x ∈ m.map Prod.fst := by
  intro x hx
  unfold dictInsert at hx
  by_cases h : m.any (fun kv => kv.1 == k)
  · rw [if_pos h, List.map_map, List.mem_map] at hx
    obtain ⟨kv, hkv, hfst⟩ := hx
    simp only [Function.comp] at hfst
    by_cases hk : kv.1 == k
    · rw [if_pos hk] at hfst
      exact Or.inl hfst.symm
    · rw [if_neg hk] at hfst
      exact Or.inr (hfst ▸ List.mem_map_of_mem Prod.fst hkv)
  · rw [if_neg h, List.map_append, List.mem_append] at hx
    rcases hx with hx | hx
    · exact Or.inr hx
    · simp at hx
      exact Or.inl hx

lemma applyBulk_fst_mem (items : List BulkItem) :
    ∀ ans t, ∀ x ∈ (applyBulk items (ans, t)).1.map Prod.fst,
      x ∈ items.map BulkItem.questionId ∨ x ∈ ans.map Prod.fst := by
  induction items with
  | nil =>
    intro ans t x hx
    right
    simpa [applyBulk] using hx
  | cons it rest ih =>
    intro ans t x hx
    simp only [applyBulk] at hx
    rcases ih _ _ x hx with h | h
    · left; simp [h]
    · rcases dictInsert_fst_mem x h with h1 | h1
      · left; simp [h1]
      · right; exact h1

lemma mem_updateFirst {α : Type} {p : α → Bool} {f : α → α} {l : List α} :
    ∀ b ∈ updateFirst p f l, b ∈ l ∨ ∃ a ∈ l, p a = true ∧ b = f a := by
  induction l with
  | nil => intro b hb; simp [updateFirst] at hb
  | cons a as ih =>
    intro b hb
    simp only [updateFirst] at hb
    by_cases hp : p a
    · rw [if_pos hp] at hb
      rcases List.mem_cons.mp hb with rfl | hmem
      · exact Or.inr ⟨a, List.mem_cons_self a as, hp, rfl⟩
      · exact Or.inl (List.mem_cons_of_mem _ hmem)
    · rw [if_neg hp] at hb
      rcases List.mem_cons.mp hb with rfl | hmem
      · exact Or.inl (List.mem_cons_self _ _)
      · rcases ih b hmem with h | ⟨a', ha', hpa', rfl⟩
        · exact Or.inl (List.mem_cons_of_mem _ h)
        · exact Or.inr ⟨a', List.mem_cons_of_mem _ ha', hpa', rfl⟩

/-- The database of the C8 counterexample: one attempt frozen to the
single question `q1`, with no answers yet. -/
def dbC8 : DB := ⟨[⟨"u1", "b@x.com", "b", false⟩], [], [], [],
  [⟨"ce1", "u1", "e1", ["q1"], [], 100, 0, "in_progress", none, 0⟩], 0⟩

/-- C8 counterexample: `save_answer` performs no membership validation, so
saving an answer for `q2` — not among the attempt's frozen question ids —
moves the store from a state satisfying the keys-subset invariant to one
violating it.  The claim that every answers-mutating operation preserves
the invariant is therefore false. -/
theorem save_answer_breaks_subset_invariant :
    answersInv dbC8 ∧
    (save_answer dbC8 "b@x.com" "ce1" "q2" 0 0).2.candidateExams.map
      (fun a => a.answers.map Prod.fst) = [["q2"]] ∧
    ¬ answersInv (save_answer dbC8 "b@x.com" "ce1" "q2" 0 0).2 := by
  refine ⟨by unfold answersInv; decide, by rfl, by unfold answersInv; decide⟩

/-- C8 amended: `save_answer` and `bulk_save` preserve the keys ⊆
question_ids invariant exactly when every question id they write is among
the target attempt's frozen question ids — the operations themselves do
not validate this (a hardening gap the spec flags in §9). -/
theorem save_ops_preserve_answer_keys (db : DB) (email ceid qid : String)
    (sel t : Int) (items : List BulkItem)
    (hinv : answersInv db)
    (hq : ∀ a ∈ db.candidateExams, a.id = ceid → qid ∈ a.questionIds)
    (hqs : ∀ a ∈ db.candidateExams, a.id = ceid →
      ∀ it ∈ items, it.questionId ∈ a.questionIds) :
    answersInv (save_answer db email ceid qid sel t).2 ∧
    answersInv (bulk_save_answers db email ceid items).2 := by
  constructor
  · unfold save_answer
    split
    · exact hinv
    · split
      · exact hinv
      · intro a ha k hk
        rcases mem_updateFirst a ha with h | ⟨a0, ha0, hpa0, rfl⟩
        · exact hinv a h k hk
        · have hid : a0.id = ceid := by
            simp only [Bool.and_eq_true, beq_iff_eq] at hpa0
            exact hpa0.1
          rcases dictInsert_fst_mem k hk with rfl | hmem
          · exact hq a0 ha0 hid
          · exact hinv a0 ha0 k hmem
  · unfold bulk_save_answers
    split
    · exact hinv
    · split
      · exact hinv
      · intro a ha k hk
        rcases mem_updateFirst a ha with h | ⟨a0, ha0, hpa0, rfl⟩
        · exact hinv a h k hk
        · have hid : a0.id = ceid := by
            simp only [Bool.and_eq_true, beq_iff_eq] at hpa0
            exact hpa0.1
          rcases applyBulk_fst_mem items a0.answers a0.timeElapsed k hk with
            hmem | hmem
          · rw [List.mem_map] at hmem
            obtain ⟨it, hit, rfl⟩ := hmem
            exact hqs a0 ha0 hid it hit
          · exact hinv a0 ha0 k hmem

/-- Closed instance of `save_ops_preserve_answer_keys`: saving `q1`, which
is among the attempt's question ids, keeps the invariant. -/
theorem save_ops_preserve_answer_keys_witness :
    answersInv (save_answer dbC8 "b@x.com" "ce1" "q1" 0 0).2 ∧
    answersInv (bulk_save_answers dbC8 "b@x.com" "ce1" [⟨"q1", 1, 4⟩]).2 :=
  save_ops_preserve_answer_keys dbC8 "b@x.com" "ce1" "q1" 0 0 [⟨"q1", 1, 4⟩]
    (by unfold answersInv; decide) (by decide) (by decide)

/- ===== C9 ===== -/

/-- The database of the C9 counterexample: an admin and an exam, with the
candidate `new@nmkglobalinc.com` not yet provisioned. -/
def dbC9 : DB := ⟨[⟨"adm", "boss@nmkglobalinc.com", "boss", true⟩],
  [⟨"e1", "T", "java", 1, 100, "adm", true⟩], [], [], [], 0⟩

/-- C9 counterexample: provisioning during exam assignment hardcodes
`is_admin=False`, even though the created identity's email is in the
admin-marking domain, so `is_admin` is *not* "true exactly when the
email's domain marks an administrator" on that creation path. -/
theorem assign_provisions_admin_domain_without_admin :
    isNmkEmail "new@nmkglobalinc.com" = true ∧
    (assign_exam dbC9 "boss@nmkglobalinc.com" "e1" ["new@nmkglobalinc.com"]
        (fun _ => .created) (fun _ => true)).2.users.map
      (fun u => (u.email, u.isAdmin)) =
      [("boss@nmkglobalinc.com", true), ("new@nmkglobalinc.com", false)] :=
  ⟨rfl, rfl⟩

lemma assignLoop_users (cog : String → CogResult) (sendOk : String → Bool)
    (adminId examId : String) :
    ∀ (emails : List String) (db : DB) (st : AssignStats),
      ∃ extra, (assignLoop cog sendOk adminId examId emails db st).2.users =
          db.users ++ extra ∧ ∀ w ∈ extra, w.isAdmin = false := by
  intro emails
  induction emails with
  | nil =>
    intro db st
    exact ⟨[], by simp [assignLoop], by simp⟩
  | cons e rest ih =>
    intro db st
    unfold assignLoop
    dsimp only
    split
    · exact ⟨[], by simp, by simp⟩
    · rename_i db1 st1 heq
      have husers : db1.users = db.users ∨ db1.users = db.users ++
          [⟨normEmail e, normEmail e, emailName (normEmail e), false⟩] := by
        split at heq
        · injection heq with h
          injection h with h1 h2
          exact Or.inl (h1 ▸ rfl)
        · split at heq
          · cases heq
          · injection heq with h
            injection h with h1 h2
            exact Or.inr (h1 ▸ rfl)
      have step : ∀ db2 : DB, db2.users = db1.users →
          ∀ st2, ∃ extra,
            (assignLoop cog sendOk adminId examId rest db2 st2).2.users =
              db.users ++ extra ∧ ∀ w ∈ extra, w.isAdmin = false := by
        intro db2 h2 st2
        obtain ⟨extra, hex, hadm⟩ := ih db2 st2
        rcases husers with h | h
        · exact ⟨extra, by rw [hex, h2, h], hadm⟩
        · refine ⟨⟨normEmail e, normEmail e, emailName (normEmail e), false⟩ ::
            extra, by rw [hex, h2, h]; simp, ?_⟩
          intro w hw
          rcases List.mem_cons.mp hw with rfl | hw
          · rfl
          · exact hadm w hw
      split
      · exact step db1 rfl st1
      · apply step
        rfl

lemma create_exam_users (db : DB) (e : String) (inp : ExamCreateIn)
    (oracle : Nat → GenResp) :
    (create_exam db e inp oracle).2.users = db.users := by
  unfold create_exam
  try dsimp only
  repeat' split
  all_goals rfl

lemma toggle_users (db : DB) (e ex : String) :
    (toggle_exam_status db e ex).2.users = db.users := by
  unfold toggle_exam_status
  try dsimp only
  repeat' split
  all_goals rfl

lemma start_users (db : DB) (e ex : String) :
    (start_exam db e ex).2.users = db.users := by
  unfold start_exam
  try dsimp only
  repeat' split
  all_goals rfl

lemma get_exam_db (db : DB) (e c : String) : (get_exam db e c).2 = db := by
  unfold get_exam
  try dsimp only
  repeat' split
  all_goals rfl

lemma save_users (db : DB) (e c q : String) (s t : Int) :
    (save_answer db e c q s t).2.users = db.users := by
  unfold save_answer
  try dsimp only
  repeat' split
  all_goals rfl

lemma bulk_users (db : DB) (e c : String) (items : List BulkItem) :
    (bulk_save_answers db e c items).2.users = db.users := by
  unfold bulk_save_answers
  try dsimp only
  repeat' split
  all_goals rfl

lemma resume_exam_db (db : DB) (e : String) : (resume_exam db e).2 = db := by
  unfold resume_exam
  try dsimp only
  repeat' split
  all_goals rfl

lemma submit_users (db : DB) (e c : String) (t : Int) (now : Nat) :
    (submit_exam db e c t now).2.users = db.users := by
  unfold submit_exam
  try dsimp only
  repeat' split
  all_goals rfl

lemma get_result_db (db : DB) (e c : String) : (get_result db e c).2 = db := by
  unfold get_result
  try dsimp only
  repeat' split
  all_goals rfl

lemma assign_users_shape (db : DB) (e ex : String) (emails : List String)
    (cog : String → CogResult) (sendOk : String → Bool) :
    ∃ extra, (assign_exam db e ex emails cog sendOk).2.users =
      db.users ++ extra ∧ ∀ w ∈ extra, w.isAdmin = false := by
  unfold assign_exam
  split
  · exact ⟨[], by simp, by simp⟩
  · split
    · exact ⟨[], by simp, by simp⟩
    · split
      · exact ⟨[], by simp, by simp⟩
      · split
        · rename_i hloop
          exact ⟨[], by simp, by simp⟩
        · rename_i st' db' hloop
          obtain ⟨extra, hex, hadm⟩ :=
            assignLoop_users cog sendOk _ ex emails db ⟨0, 0, 0⟩
          rw [hloop] at hex
          exact ⟨extra, hex, hadm⟩

/-- C9 amended: `is_admin` is written only when an identity row is
created and never re-evaluated afterwards (every pre-existing user row
survives every operation unchanged); the lazy-creation path at first
authentication derives it from the email domain, while the provisioning
path inside exam assignment always sets it to false regardless of the
domain. -/
theorem is_admin_set_once_at_creation (db : DB) (op : Op) :
    ∃ extra, (applyOp db op).users = db.users ++ extra ∧
      ∀ w ∈ extra, w.isAdmin = (match op with
        | .sync _ email => isNmkEmail email
        | _ => false) := by
  cases op with
  | sync s e =>
    simp only [applyOp]
    unfold sync_user
    split
    · exact ⟨[], by simp, by simp⟩
    · refine ⟨[⟨s, e, emailName e, isNmkEmail e⟩], by simp, ?_⟩
      intro w hw
      rcases List.mem_singleton.mp hw with rfl
      rfl
  | createEx e inp oracle =>
    exact ⟨[], by simp [applyOp, create_exam_users], by simp⟩
  | assign e ex emails cog sendOk =>
    obtain ⟨extra, hex, hadm⟩ := assign_users_shape db e ex emails cog sendOk
    exact ⟨extra, by simpa [applyOp] using hex, hadm⟩
  | toggle e ex =>
    exact ⟨[], by simp [applyOp, toggle_users], by simp⟩
  | start e ex =>
    exact ⟨[], by simp [applyOp, start_users], by simp⟩
  | getEx e c =>
    exact ⟨[], by simp [applyOp, get_exam_db], by simp⟩
  | save e c q s t =>
    exact ⟨[], by simp [applyOp, save_users], by simp⟩
  | bulk e c items =>
    exact ⟨[], by simp [applyOp, bulk_users], by simp⟩
  | resume e =>
    exact ⟨[], by simp [applyOp, resume_exam_db], by simp⟩
  | submit e c t now =>
    exact ⟨[], by simp [applyOp, submit_users], by simp⟩
  | result e c =>
    exact ⟨[], by simp [applyOp, get_result_db], by simp⟩

/- ===== Shape of candidateExams under each operation ===== -/

/-- Row rewrites applied by `save_answer`, `bulk_save_answers` and
`submit_exam`: they never change the owner, and either keep the status or
force it to `completed`. -/
def RowTame (f : AttemptRow → AttemptRow) : Prop :=
  ∀ a, (f a).userId = a.userId ∧
    ((f a).status = a.status ∨ (f a).status = "completed")

lemma sync_ce (db : DB) (s e : String) :
    (sync_user db s e).2.candidateExams = db.candidateExams := by
  unfold sync_user
  repeat' split
  all_goals rfl

lemma create_exam_ce (db : DB) (e : String) (inp : ExamCreateIn)
    (oracle : Nat → GenResp) :
    (create_exam db e inp oracle).2.candidateExams = db.candidateExams := by
  unfold create_exam
  try dsimp only
  repeat' split
  all_goals rfl

lemma toggle_ce (db : DB) (e ex : String) :
    (toggle_exam_status db e ex).2.candidateExams = db.candidateExams := by
  unfold toggle_exam_status
  repeat' split
  all_goals rfl

lemma assignLoop_ce (cog : String → CogResult) (sendOk : String → Bool)
    (adminId examId : String) :
    ∀ (emails : List String) (db : DB) (st : AssignStats),
      (assignLoop cog sendOk adminId examId emails db st).2.candidateExams =
        db.candidateExams := by
  intro emails
  induction emails with
  | nil => intro db st; simp [assignLoop]
  | cons e rest ih =>
    intro db st
    unfold assignLoop
    dsimp only
    split
    · rfl
    · rename_i db1 st1 heq
      have h1 : db1.candidateExams = db.candidateExams := by
        split at heq
        · injection heq with h
          injection h with ha hb
          exact ha ▸ rfl
        · split at heq
          · cases heq
          · injection heq with h
            injection h with ha hb
            exact ha ▸ rfl
      split
      · rw [ih db1 st1, h1]
      · rw [ih _ _]
        exact h1

lemma assign_ce (db : DB) (e ex : String) (emails : List String)
    (cog : String → CogResult) (sendOk : String → Bool) :
    (assign_exam db e ex emails cog sendOk).2.candidateExams =
      db.candidateExams := by
  unfold assign_exam
  split
  · rfl
  · split
    · rfl
    · split
      · rfl
      · split
        · rfl
        · rename_i st' db' hloop
          exact (congrArg (fun x => x.2.candidateExams) hloop).symm.trans
            (assignLoop_ce cog sendOk _ ex emails db ⟨0, 0, 0⟩)

lemma start_ce_shape (db : DB) (e ex : String) :
    (start_exam db e ex).2.candidateExams = db.candidateExams ∨
    ∃ u : UserRow, findUserByEmail db e = some u ∧
      findInProgress db u.id = none ∧
      ∃ att : AttemptRow, att.userId = u.id ∧ att.status = "in_progress" ∧
        (start_exam db e ex).2.candidateExams = db.candidateExams ++ [att] := by
  unfold start_exam
  split
  · exact Or.inl rfl
  · rename_i u hu
    split
    · exact Or.inl rfl
    · rename_i asg hasg
      split
      · exact Or.inl rfl
      · rename_i hnone
        split
        · exact Or.inl rfl
        · rename_i exr hex
          dsimp only
          split
          · exact Or.inl rfl
          · exact Or.inr ⟨u, hu, hnone, _, rfl, rfl, rfl⟩

lemma save_ce_shape (db : DB) (e c q : String) (s t : Int) :
    (save_answer db e c q s t).2.candidateExams = db.candidateExams ∨
    ∃ (p : AttemptRow → Bool) (f : AttemptRow → AttemptRow), RowTame f ∧
      (save_answer db e c q s t).2.candidateExams =
        updateFirst p f db.candidateExams := by
  unfold save_answer
  split
  · exact Or.inl rfl
  · split
    · exact Or.inl rfl
    · refine Or.inr ⟨_, _, ?_, rfl⟩
      intro a
      exact ⟨rfl, Or.inl rfl⟩

lemma bulk_ce_shape (db : DB) (e c : String) (items : List BulkItem) :
    (bulk_save_answers db e c items).2.candidateExams = db.candidateExams ∨
    ∃ (p : AttemptRow → Bool) (f : AttemptRow → AttemptRow), RowTame f ∧
      (bulk_save_answers db e c items).2.candidateExams =
        updateFirst p f db.candidateExams := by
  unfold bulk_save_answers
  split
  · exact Or.inl rfl
  · split
    · exact Or.inl rfl
    · refine Or.inr ⟨_, _, ?_, rfl⟩
      intro a
      exact ⟨rfl, Or.inl rfl⟩

lemma submit_ce_shape (db : DB) (e c : String) (t : Int) (now : Nat) :
    (submit_exam db e c t now).2.candidateExams = db.candidateExams ∨
    ∃ (p : AttemptRow → Bool) (f : AttemptRow → AttemptRow), RowTame f ∧
      (submit_exam db e c t now).2.candidateExams =
        updateFirst p f db.candidateExams := by
  unfold submit_exam
  split
  · exact Or.inl rfl
  · split
    · exact Or.inl rfl
    · refine Or.inr ⟨_, _, ?_, rfl⟩
      intro a
      exact ⟨rfl, Or.inr rfl⟩

/- ===== C6 ===== -/

/-- The §3 invariant: at most one `in_progress` attempt per user
(phrased over the attempt table and decidably, via a per-row count). -/
def oneInProgressPerUser (l : List AttemptRow) : Prop :=
  ∀ a ∈ l, a.status = "in_progress" →
    l.countP (fun b => b.userId == a.userId && b.status == "in_progress") ≤ 1

lemma countP_updateFirst_le {α : Type} {pred : α → Bool}
    {p : α → Bool} {f : α → α}
    (himp : ∀ a, pred (f a) = true → pred a = true) :
    ∀ l : List α, (updateFirst p f l).countP pred ≤ l.countP pred := by
  intro l
  induction l with
  | nil => simp [updateFirst]
  | cons a as ih =>
    simp only [updateFirst]
    by_cases hp : p a
    · rw [if_pos hp]
      simp only [List.countP_cons]
      have h1 : (if pred (f a) = true then 1 else 0) ≤
          (if pred a = true then 1 else 0) := by
        by_cases hfa : pred (f a) = true
        · simp [hfa, himp a hfa]
        · simp [hfa]
      exact Nat.add_le_add_left h1 _
    · rw [if_neg hp]
      simp only [List.countP_cons]
      exact Nat.add_le_add_right ih _

lemma rowTame_pred_imp {f : AttemptRow → AttemptRow} (hf : RowTame f)
    (uid : String) :
    ∀ a, ((f a).userId == uid && (f a).status == "in_progress") = true →
      (a.userId == uid && a.status == "in_progress") = true := by
  intro a h
  rcases hf a with ⟨hu, hs | hs⟩
  · rwa [hu, hs] at h
  · rw [hs] at h
    simp at h

lemma oneInProgress_updateFirst {p : AttemptRow → Bool}
    {f : AttemptRow → AttemptRow} (hf : RowTame f)
    {l : List AttemptRow} (hinv : oneInProgressPerUser l) :
    oneInProgressPerUser (updateFirst p f l) := by
  intro a ha hst
  rcases mem_updateFirst a ha with h | ⟨a0, ha0, hp0, rfl⟩
  · exact le_trans (countP_updateFirst_le (rowTame_pred_imp hf a.userId) l)
      (hinv a h hst)
  · rcases hf a0 with ⟨hu, hs | hs⟩
    · have h0 : a0.status = "in_progress" := hs ▸ hst
      have hcnt := hinv a0 ha0 h0
      calc (updateFirst p f l).countP
            (fun b => b.userId == (f a0).userId && b.status == "in_progress")
          ≤ l.countP
            (fun b => b.userId == (f a0).userId && b.status == "in_progress") :=
            countP_updateFirst_le (rowTame_pred_imp hf (f a0).userId) l
        _ ≤ 1 := by rw [hu]; exact hcnt
    · rw [hst] at hs
      simp at hs

lemma oneInProgress_append_fresh {l : List AttemptRow} {att : AttemptRow}
    {uid : String} (hinv : oneInProgressPerUser l)
    (hnone : l.find? (fun a => a.userId == uid && a.status == "in_progress") =
      none)
    (huid : att.userId = uid) (hst : att.status = "in_progress") :
    oneInProgressPerUser (l ++ [att]) := by
  have hzero : l.countP
      (fun b => b.userId == uid && b.status == "in_progress") = 0 := by
    rw [List.countP_eq_zero]
    intro a ha
    have := List.find?_eq_none.mp hnone a ha
    simpa using this
  intro a ha hsta
  rcases List.mem_append.mp ha with h | h
  · by_cases hu : a.userId = uid
    · exfalso
      have := List.find?_eq_none.mp hnone a h
      simp [hu, hsta] at this
    · rw [List.countP_append]
      have hl := hinv a h hsta
      have : List.countP
          (fun b => b.userId == a.userId && b.status == "in_progress") [att] = 0 := by
        simp only [List.countP_cons, List.countP_nil]
        have : (att.userId == a.userId && att.status == "in_progress") = false := by
          rw [huid]
          simp only [Bool.and_eq_false_iff]
          left
          simpa using fun hh => hu hh.symm
        simp [this]
      omega
  · have ha' : a = att := by simpa using h
    subst ha'
    rw [List.countP_append, huid, hzero]
    simp [List.countP_cons, huid, hst]

/-- C6: in the sequential model every operation preserves "at most one
`in_progress` attempt per user": `start` only appends an `in_progress`
attempt after its lookup finds none for the user, and no other operation
ever sets a status to `in_progress`. -/
theorem one_in_progress_invariant (db : DB) (op : Op)
    (hinv : oneInProgressPerUser db.candidateExams) :
    oneInProgressPerUser (applyOp db op).candidateExams := by
  cases op with
  | sync s e => rw [applyOp, sync_ce]; exact hinv
  | createEx e inp oracle => rw [applyOp, create_exam_ce]; exact hinv
  | assign e ex ems cog sendOk => rw [applyOp, assign_ce]; exact hinv
  | toggle e ex => rw [applyOp, toggle_ce]; exact hinv
  | getEx e c => rw [applyOp, get_exam_db]; exact hinv
  | resume e => rw [applyOp, resume_exam_db]; exact hinv
  | result e c => rw [applyOp, get_result_db]; exact hinv
  | start e ex =>
    rcases start_ce_shape db e ex with h | ⟨u, hu, hnone, att, huid, hst, h⟩
    · rw [applyOp, h]; exact hinv
    · rw [applyOp, h]
      exact oneInProgress_append_fresh hinv hnone huid hst
  | save e c q s t =>
    rcases save_ce_shape db e c q s t with h | ⟨p, f, hf, h⟩
    · rw [applyOp, h]; exact hinv
    · rw [applyOp, h]; exact oneInProgress_updateFirst hf hinv
  | bulk e c items =>
    rcases bulk_ce_shape db e c items with h | ⟨p, f, hf, h⟩
    · rw [applyOp, h]; exact hinv
    · rw [applyOp, h]; exact oneInProgress_updateFirst hf hinv
  | submit e c t now =>
    rcases submit_ce_shape db e c t now with h | ⟨p, f, hf, h⟩
    · rw [applyOp, h]; exact hinv
    · rw [applyOp, h]; exact oneInProgress_updateFirst hf hinv

/-- The database of the closed C6 instance: alice may start exam `e1`,
which is active and has a question; no attempt exists yet. -/
def dbC6 : DB := ⟨[⟨"sub-a", "a@x.com", "a", false⟩],
  [⟨"e1", "T", "java", 1, 100, "adm", true⟩],
  [⟨"q1", .str "t".data, .arr [.str "x".data, .str "y".data], 0, "e1"⟩],
  [⟨"as1", "e1", "a@x.com", "adm", "assigned"⟩], [], 9⟩

/-- Closed instance of `one_in_progress_invariant`: starting an exam on a
database with no attempts creates the sole `in_progress` attempt. -/
theorem one_in_progress_invariant_witness :
    oneInProgressPerUser dbC6.candidateExams ∧
    oneInProgressPerUser (applyOp dbC6 (.start "a@x.com" "e1")).candidateExams :=
  ⟨by unfold oneInProgressPerUser; decide,
   one_in_progress_invariant dbC6 (.start "a@x.com" "e1")
     (by unfold oneInProgressPerUser; decide)⟩

/- ===== C7 ===== -/

/-- The database of the C7 counterexample: an attempt sitting in the
(nominally terminal) `timed_out` state. -/
def dbC7 : DB := ⟨[⟨"u1", "c@x.com", "c", false⟩], [], [], [],
  [⟨"ce1", "u1", "e1", ["q1"], [], 100, 0, "timed_out", none, 0⟩], 0⟩

/-- C7 counterexample: `submit_exam` never inspects the current status, so
it moves a `timed_out` attempt to `completed` — a transition out of a
state the claim calls terminal. -/
theorem submit_moves_timed_out_attempt_to_completed :
    dbC7.candidateExams.map (fun a => a.status) = ["timed_out"] ∧
    (submit_exam dbC7 "c@x.com" "ce1" 5 1).2.candidateExams.map
      (fun a => a.status) = ["completed"] :=
  ⟨rfl, rfl⟩

lemma get?_updateFirst {α : Type} (p : α → Bool) (f : α → α) :
    ∀ (l : List α) (i : Nat),
      (updateFirst p f l).get? i = l.get? i ∨
      (updateFirst p f l).get? i = (l.get? i).map f := by
  intro l
  induction l with
  | nil => intro i; exact Or.inl rfl
  | cons a as ih =>
    intro i
    simp only [updateFirst]
    by_cases hp : p a
    · rw [if_pos hp]
      cases i with
      | zero => exact Or.inr rfl
      | succ j => exact Or.inl rfl
    · rw [if_neg hp]
      cases i with
      | zero => exact Or.inl rfl
      | succ j => exact ih j

lemma completed_stays_updateFirst {p : AttemptRow → Bool}
    {f : AttemptRow → AttemptRow} (hf : RowTame f) {l : List AttemptRow}
    {i : Nat} {a : AttemptRow} (ha : l.get? i = some a)
    (hc : a.status = "completed") :
    ∃ a', (updateFirst p f l).get? i = some a' ∧ a'.status = "completed" := by
  rcases get?_updateFirst p f l i with h | h
  · exact ⟨a, h.trans ha, hc⟩
  · refine ⟨f a, by rw [h, ha]; rfl, ?_⟩
    rcases (hf a).2 with hs | hs
    · rw [hs, hc]
    · exact hs

/-- C7 amended: `completed` is indeed terminal — every operation leaves a
`completed` attempt's status equal to `completed` (submit re-stamps it as
`completed`, the saves do not touch status, nothing removes rows) — but
`timed_out` is not: `submit_exam` never checks the current status and
moves a `timed_out` attempt to `completed`.  No operation ever assigns
`timed_out`, so the code itself never produces such an attempt. -/
theorem completed_attempts_stay_completed (db : DB) (op : Op) (i : Nat)
    (a : AttemptRow) (ha : db.candidateExams.get? i = some a)
    (hc : a.status = "completed") :
    ∃ a', (applyOp db op).candidateExams.get? i = some a' ∧
      a'.status = "completed" := by
  have hlt : i < db.candidateExams.length := by
    by_contra hk
    rw [List.get?_eq_none.mpr (by omega)] at ha
    cases ha
  cases op with
  | sync s e => rw [applyOp, sync_ce]; exact ⟨a, ha, hc⟩
  | createEx e inp oracle => rw [applyOp, create_exam_ce]; exact ⟨a, ha, hc⟩
  | assign e ex ems cog sendOk => rw [applyOp, assign_ce]; exact ⟨a, ha, hc⟩
  | toggle e ex => rw [applyOp, toggle_ce]; exact ⟨a, ha, hc⟩
  | getEx e c => rw [applyOp, get_exam_db]; exact ⟨a, ha, hc⟩
  | resume e => rw [applyOp, resume_exam_db]; exact ⟨a, ha, hc⟩
  | result e c => rw [applyOp, get_result_db]; exact ⟨a, ha, hc⟩
  | start e ex =>
    rcases start_ce_shape db e ex with h | ⟨u, hu, hnone, att, huid, hst, h⟩
    · rw [applyOp, h]; exact ⟨a, ha, hc⟩
    · rw [applyOp, h]
      have happ : (db.candidateExams ++ [att]).get? i = db.candidateExams.get? i := by
        simp [List.getElem?_append_left hlt]
      exact ⟨a, happ.trans ha, hc⟩
  | save e c q s t =>
    rcases save_ce_shape db e c q s t with h | ⟨p, f, hf, h⟩
    · rw [applyOp, h]; exact ⟨a, ha, hc⟩
    · rw [applyOp, h]; exact completed_stays_updateFirst hf ha hc
  | bulk e c items =>
    rcases bulk_ce_shape db e c items with h | ⟨p, f, hf, h⟩
    · rw [applyOp, h]; exact ⟨a, ha, hc⟩
    · rw [applyOp, h]; exact completed_stays_updateFirst hf ha hc
  | submit e c t now =>
    rcases submit_ce_shape db e c t now with h | ⟨p, f, hf, h⟩
    · rw [applyOp, h]; exact ⟨a, ha, hc⟩
    · rw [applyOp, h]; exact completed_stays_updateFirst hf ha hc

/-- The database of the closed C7 instance: a completed attempt that a
repeated submit re-stamps without leaving `completed`. -/
def dbC7b : DB := ⟨[⟨"u1", "c@x.com", "c", false⟩], [], [], [],
  [⟨"ce1", "u1", "e1", ["q1"], [], 100, 50, "completed", some 2, 1⟩], 0⟩

/-- Closed instance of `completed_attempts_stay_completed`. -/
theorem completed_attempts_stay_completed_witness :
    ∃ a', (applyOp dbC7b (.submit "c@x.com" "ce1" 60 3)).candidateExams.get? 0 =
      some a' ∧ a'.status = "completed" :=
  completed_attempts_stay_completed dbC7b (.submit "c@x.com" "ce1" 60 3) 0
    ⟨"ce1", "u1", "e1", ["q1"], [], 100, 50, "completed", some 2, 1⟩ rfl rfl

/- ===== C4 ===== -/

/-- No `\x7b` or `\x7d` anywhere: the inside of a flat object, and the
separators between objects. -/
def braceFree (l : List Char) : Bool := l.all (fun c => c != lbrace && c != rbrace)

/-- No backtick anywhere, so the fence-stripping substitution is the
identity. -/
def tickFree (l : List Char) : Bool := l.all (fun c => c != btick)

/-- A sequence of complete flat objects: each part contributes its object
body wrapped in braces followed by its separator text (e.g. `", "`). -/
def joinBlocks : List (List Char × List Char) → List Char
  | [] => []
  | (b, sep) :: rest => lbrace :: b ++ rbrace :: sep ++ joinBlocks rest

lemma lbrace_ne_rbrace : lbrace ≠ rbrace := by decide

lemma braceFree_cons {c : Char} {xs : List Char}
    (h : braceFree (c :: xs)) : c ≠ lbrace ∧ c ≠ rbrace ∧ braceFree xs := by
  simp only [braceFree, List.all_cons, Bool.and_eq_true, bne_iff_ne] at h
  exact ⟨h.1.1, h.1.2, by simpa [braceFree] using h.2⟩

lemma tickFree_cons {c : Char} {xs : List Char}
    (h : tickFree (c :: xs)) : c ≠ btick ∧ tickFree xs := by
  simp only [tickFree, List.all_cons, Bool.and_eq_true, bne_iff_ne] at h
  exact ⟨h.1, by simpa [tickFree] using h.2⟩

lemma stripFencesAux_id : ∀ (fuel : Nat) (l : List Char), tickFree l →
    stripFencesAux fuel l = l := by
  intro fuel
  induction fuel with
  | zero => intro l _; rfl
  | succ n ih =>
    intro l hl
    cases l with
    | nil => rfl
    | cons c rest =>
      obtain ⟨hc, hrest⟩ := tickFree_cons hl
      simp only [stripFencesAux]
      rw [if_neg (by exact fun hcontra => hc hcontra.1)]
      rw [ih rest hrest]

lemma stripFences_id {l : List Char} (h : tickFree l) : stripFences l = l :=
  stripFencesAux_id l.length l h

lemma findBlocksAux_nobrace_none {xs : List Char} (h : braceFree xs) :
    ∀ r : List Char, findBlocksAux (xs ++ r) none = findBlocksAux r none := by
  induction xs with
  | nil => intro r; rfl
  | cons c rest ih =>
    intro r
    obtain ⟨h1, h2, h3⟩ := braceFree_cons h
    simp only [List.cons_append, findBlocksAux]
    rw [if_neg h1, if_neg h2]
    exact ih h3 r

lemma findBlocksAux_nobrace_some {xs : List Char} (h : braceFree xs) :
    ∀ (r : List Char) (acc : List Char),
      findBlocksAux (xs ++ r) (some acc) =
        findBlocksAux r (some (xs.reverse ++ acc)) := by
  induction xs with
  | nil => intro r acc; rfl
  | cons c rest ih =>
    intro r acc
    obtain ⟨h1, h2, h3⟩ := braceFree_cons h
    simp only [List.cons_append, findBlocksAux]
    rw [if_neg h1, if_neg h2]
    exact (ih h3 r (c :: acc)).trans (by simp)

lemma findBlocksAux_cons_lbrace (rest : List Char) (st : Option (List Char)) :
    findBlocksAux (lbrace :: rest) st = findBlocksAux rest (some []) := by
  simp [findBlocksAux]

lemma findBlocksAux_cons_rbrace_some (rest acc : List Char) :
    findBlocksAux (rbrace :: rest) (some acc) =
      (lbrace :: acc.reverse ++ [rbrace]) :: findBlocksAux rest none := by
  simp [findBlocksAux, Ne.symm lbrace_ne_rbrace]

lemma findBlocksAux_nofollow {t : List Char} (h : braceFree t) :
    ∀ acc : List Char, findBlocksAux t (some acc) = [] := by
  induction t with
  | nil => intro acc; rfl
  | cons c rest ih =>
    intro acc
    obtain ⟨h1, h2, h3⟩ := braceFree_cons h
    simp only [findBlocksAux]
    rw [if_neg h1, if_neg h2]
    exact ih h3 (c :: acc)

lemma findBlocks_joinBlocks (tail : List Char) (ht : braceFree tail) :
    ∀ parts : List (List Char × List Char),
      (∀ p ∈ parts, braceFree p.1 ∧ braceFree p.2) →
      findBlocksAux (joinBlocks parts ++ lbrace :: tail) none =
        parts.map (fun p => lbrace :: p.1 ++ [rbrace]) := by
  intro parts
  induction parts with
  | nil =>
    intro _
    rw [show joinBlocks [] ++ lbrace :: tail = lbrace :: tail from rfl]
    rw [findBlocksAux_cons_lbrace, findBlocksAux_nofollow ht]
    rfl
  | cons p rest ih =>
    intro hparts
    obtain ⟨b, sep⟩ := p
    obtain ⟨hb, hs⟩ := hparts (b, sep) (List.mem_cons_self _ rest)
    have hshape : joinBlocks ((b, sep) :: rest) ++ lbrace :: tail =
        lbrace :: (b ++ (rbrace :: (sep ++ (joinBlocks rest ++ lbrace :: tail)))) := by
      simp [joinBlocks]
    rw [hshape, findBlocksAux_cons_lbrace]
    rw [findBlocksAux_nobrace_some hb]
    rw [findBlocksAux_cons_rbrace_some]
    rw [findBlocksAux_nobrace_none hs]
    rw [ih (fun q hq => hparts q (List.mem_cons_of_mem _ hq))]
    simp

lemma dropWhile_append_cases {α : Type} (p : α → Bool) :
    ∀ xs ys : List α, (xs ++ ys).dropWhile p =
      if (xs.dropWhile p).isEmpty then ys.dropWhile p
      else xs.dropWhile p ++ ys := by
  intro xs
  induction xs with
  | nil => intro ys; simp
  | cons a as ih =>
    intro ys
    simp only [List.cons_append, List.dropWhile_cons]
    by_cases ha : p a
    · simp only [ha, if_true, ih ys]
    · simp [ha]

lemma mem_of_mem_dropWhileP {α : Type} {p : α → Bool} :
    ∀ {l : List α} {a : α}, a ∈ l.dropWhile p → a ∈ l := by
  intro l
  induction l with
  | nil => intro a h; simp at h
  | cons b bs ih =>
    intro a h
    rw [List.dropWhile_cons] at h
    by_cases hb : p b
    · rw [if_pos hb] at h
      exact List.mem_cons_of_mem _ (ih h)
    · rw [if_neg hb] at h
      exact h

lemma braceFree_rstrip {t : List Char} (h : braceFree t) :
    braceFree (rstrip t) := by
  rw [braceFree, List.all_eq_true] at *
  intro a ha
  apply h
  rw [rstrip] at ha
  exact List.mem_reverse.mp (mem_of_mem_dropWhileP (List.mem_reverse.mp ha))

lemma rstrip_append {A : List Char} {c : Char} (hc : isPyWs c = false)
    (t : List Char) : rstrip (A ++ c :: t) = A ++ c :: rstrip t := by
  unfold rstrip
  rw [List.reverse_append, List.reverse_cons, List.append_assoc,
    dropWhile_append_cases]
  by_cases h : (t.reverse.dropWhile isPyWs).isEmpty
  · rw [if_pos h]
    have ht : t.reverse.dropWhile isPyWs = [] := by
      simpa [List.isEmpty_iff] using h
    rw [ht]
    simp [List.dropWhile_cons, hc]
  · rw [if_neg h]
    simp

lemma tickFree_append {a b : List Char} (ha : tickFree a) (hb : tickFree b) :
    tickFree (a ++ b) := by
  simp only [tickFree, List.all_append, Bool.and_eq_true]
  exact ⟨ha, hb⟩

lemma tickFree_cons_intro {c : Char} {l : List Char} (hc : c ≠ btick)
    (hl : tickFree l) : tickFree (c :: l) := by
  simp only [tickFree, List.all_cons, Bool.and_eq_true, bne_iff_ne]
  exact ⟨hc, hl⟩

lemma tickFree_joinBlocks :
    ∀ parts : List (List Char × List Char),
      (∀ p ∈ parts, tickFree p.1 ∧ tickFree p.2) →
      tickFree (joinBlocks parts) := by
  intro parts
  induction parts with
  | nil => intro _; rfl
  | cons p rest ih =>
    intro h
    obtain ⟨b, sep⟩ := p
    obtain ⟨h1, h2⟩ := h (b, sep) (List.mem_cons_self _ rest)
    have h3 := ih (fun q hq => h q (List.mem_cons_of_mem _ hq))
    rw [joinBlocks]
    exact tickFree_append (tickFree_append
      (tickFree_cons_intro (by decide) h1)
      (tickFree_cons_intro (by decide) h2)) h3

/-- C4: a generator output that is an array of complete flat objects
(each brace-free inside, separated by brace-free text) followed by a
truncated trailing object (an opening brace and a brace-free fragment
with no closing brace), all without backticks, is extracted to exactly
the candidates decoded from the complete objects, in order; the truncated
tail contributes nothing. -/
theorem extractor_drops_truncated_tail (parts : List (List Char × List Char))
    (tail : List Char)
    (hp : ∀ p ∈ parts, braceFree p.1 ∧ braceFree p.2)
    (hpt : ∀ p ∈ parts, tickFree p.1 ∧ tickFree p.2)
    (ht : braceFree tail) (htt : tickFree tail) :
    parse_llm_response ⟨'[' :: (joinBlocks parts ++ lbrace :: tail)⟩ =
      blocksToCandidates (parts.map (fun p => lbrace :: p.1 ++ [rbrace])) := by
  have htick : tickFree ('[' :: (joinBlocks parts ++ lbrace :: tail)) :=
    tickFree_cons_intro (by decide)
      (tickFree_append (tickFree_joinBlocks parts hpt)
        (tickFree_cons_intro (by decide) htt))
  have hstrip : pystrip ('[' :: (joinBlocks parts ++ lbrace :: tail)) =
      '[' :: (joinBlocks parts ++ lbrace :: rstrip tail) := by
    unfold pystrip
    have hl : lstrip ('[' :: (joinBlocks parts ++ lbrace :: tail)) =
        '[' :: (joinBlocks parts ++ lbrace :: tail) := by
      simp [lstrip, List.dropWhile_cons, isPyWs]
    rw [hl]
    have hshape : '[' :: (joinBlocks parts ++ lbrace :: tail) =
        ('[' :: joinBlocks parts) ++ lbrace :: tail := by simp
    rw [hshape, rstrip_append (by decide) tail]
    simp
  unfold parse_llm_response
  rw [if_neg (by simp)]
  have hdata : (String.mk ('[' :: (joinBlocks parts ++ lbrace :: tail))).data =
      '[' :: (joinBlocks parts ++ lbrace :: tail) := rfl
  rw [hdata, stripFences_id htick, hstrip]
  dsimp only
  have hidx : List.findIdx? (fun c => c = '[')
      ('[' :: (joinBlocks parts ++ lbrace :: rstrip tail)) = some 0 := by
    simp [List.findIdx?_cons]
  rw [hidx]
  dsimp only [List.drop_zero]
  unfold findBlocks
  have hhead : findBlocksAux ('[' :: (joinBlocks parts ++ lbrace :: rstrip tail))
      none = findBlocksAux (joinBlocks parts ++ lbrace :: rstrip tail) none := by
    simp only [findBlocksAux]
    rw [if_neg (by decide : ¬(('[' : Char) = lbrace)),
      if_neg (by decide : ¬(('[' : Char) = rbrace))]
  rw [hhead, findBlocks_joinBlocks (rstrip tail) (braceFree_rstrip ht) parts hp]

/-- The complete objects and truncated tail of the closed C4 instance. -/
def partsC4 : List (List Char × List Char) :=
  [("\"Question\": \"q1\", \"Options\": [\"a\", \"b\"], \"Answer\": \"b\"".data,
    ", ".data)]

def tailC4 : List Char := "\"Question\": \"q2\", \"Opt".data

/-- Closed instance of `extractor_drops_truncated_tail`: one complete
object followed by a mid-string truncation; extraction yields exactly the
candidate of the complete object. -/
theorem extractor_drops_truncated_tail_witness :
    (∀ p ∈ partsC4, braceFree p.1 ∧ braceFree p.2) ∧
    (∀ p ∈ partsC4, tickFree p.1 ∧ tickFree p.2) ∧
    braceFree tailC4 ∧ tickFree tailC4 ∧
    parse_llm_response ⟨'[' :: (joinBlocks partsC4 ++ lbrace :: tailC4)⟩ =
      blocksToCandidates (partsC4.map (fun p => lbrace :: p.1 ++ [rbrace])) :=
  ⟨by decide, by decide, by decide, by decide,
   extractor_drops_truncated_tail partsC4 tailC4 (by decide) (by decide)
     (by decide) (by decide)⟩

end CertPortal
